import Mathlib

/-!
# Verification of the effect demo repository

Shallow embedding of three TypeScript demo scripts (`src/Program.ts`,
`src/unnamed/part_000`, `src/unnamed/part_001`) built on the Effect
library.  The scripts define a user-repository service with an in-memory
implementation and a localStorage-persisted implementation, plus a small
composition root.

Modelling conventions:
* Effect values are modelled by their synchronous evaluation result.
  `EffResult ε α` distinguishes success (`ok`), a typed failure in the
  error channel (`fail`, what `Effect.catchAll` intercepts) and a defect
  (`die`, a JavaScript exception thrown inside an `Effect.map` /
  `Effect.flatMap` callback, which `catchAll` does *not* intercept).
* The browser `localStorage` is a finite string-keyed map of strings.
* `JSON.parse` / `JSON.stringify` are modelled per ECMA-404 on a JSON
  value AST, with numeric literals restricted to integers (the data
  model stores integer ids only) and string escapes restricted to the
  printable fragment (`\"` and `\\`; `\u` escapes of control characters
  are outside the fragment used by the repository data).
* JavaScript dynamic operations used on parsed values (`users || []`,
  `users.find(...)`, `users.findIndex(...)`, member access `u.id`,
  strict equality `===`) are modelled on the JSON AST, including the
  `TypeError` defect raised by calling `.find` on a non-array value or
  reading a member of `null`.
-/

/-- A user record: `type User = { id: number; name: string }`. Identical in
all three source files.  Ids are modelled as integers per the data model. -/
structure User where
  id : Int
  name : String
deriving DecidableEq, Repr

/-- JSON value AST (numbers restricted to integers). -/
inductive JSON where
  | jnull : JSON
  | jbool : Bool → JSON
  | jnum : Int → JSON
  | jstr : String → JSON
  | jarr : List JSON → JSON
  | jobj : List (String × JSON) → JSON

/-- Result of evaluating an Effect: success, typed failure (the error
channel, caught by `Effect.catchAll`), or a defect (an exception thrown
inside a callback, *not* caught by `Effect.catchAll`). -/
inductive EffResult (ε α : Type) where
  | ok : α → EffResult ε α
  | fail : ε → EffResult ε α
  | die : EffResult ε α

/-- `true` iff the effect succeeded. -/
def EffResult.isOk {ε α : Type} : EffResult ε α → Bool
  | .ok _ => true
  | _ => false

/-- Outcome of a pure JavaScript computation that may throw (`throw` models
a raised `TypeError`). -/
inductive JsOutcome (α : Type) where
  | ok : α → JsOutcome α
  | throw : JsOutcome α

/-- A JavaScript value thrown and handed to a `catch` handler: either an
`Error` carrying a message, or some non-`Error` value. -/
inductive Thrown where
  | err : String → Thrown
  | other : Thrown
deriving DecidableEq, Repr

/-- Which static factory of the `LocalStorageError` class constructed the
error.  The spec's error taxonomy names the factories `StorageParseFailure`
(`parseError`), `StorageWriteFailure` (`stringifyError`) and
`StorageKeyNotFound` (`NotFound`). -/
inductive LSKind where
  | parse : LSKind
  | stringify : LSKind
  | notFound : LSKind
deriving DecidableEq, Repr

/-- `class LocalStorageError extends Error`: the constructor prefixes the
message with `"LocalStorageError: "`.  `kind` records which static factory
built the value (the spec's error-taxonomy discriminant). -/
structure LocalStorageError where
  kind : LSKind
  message : String
deriving DecidableEq, Repr

/-- `LocalStorageError.parseError(error)`: wraps a thrown value, reusing an
`Error`'s message, else `"Unknown error"`. -/
def LocalStorageError.parseError : Thrown → LocalStorageError
  | .err m => ⟨.parse, "LocalStorageError: " ++ m⟩
  | .other => ⟨.parse, "LocalStorageError: Unknown error"⟩

/-- `LocalStorageError.stringifyError(error)`. -/
def LocalStorageError.stringifyError : Thrown → LocalStorageError
  | .err m => ⟨.stringify, "LocalStorageError: " ++ m⟩
  | .other => ⟨.stringify, "LocalStorageError: Unknown error"⟩

/-- `LocalStorageError.NotFound(key)`. -/
def LocalStorageError.NotFound (key : String) : LocalStorageError :=
  ⟨.notFound, "LocalStorageError: LocalStorage key " ++ key ++ " not found"⟩

/-- `class UserRepositoryError extends Error` (declared in part_000 and
part_001; its `NotFound` factory is never invoked by the repository code). -/
structure UserRepositoryError where
  message : String
deriving DecidableEq, Repr

/-- `UserRepositoryError.NotFound(id)`. -/
def UserRepositoryError.NotFound (id : Int) : UserRepositoryError :=
  ⟨"UserRepositoryError: User with id " ++ toString id ++ " not found"⟩

/-- The browser localStorage content: an association list keyed by string.
`none` on lookup models a key that is unset (JS `null`). -/
def Store : Type := List (String × String)

/-- `localStorage.getItem(key)`. -/
def Store.get (s : Store) (k : String) : Option String :=
  (List.find? (fun p => p.1 == k) s).map (fun p => p.2)

/-- `localStorage.setItem(key, value)`: overwrite or append. -/
def Store.set (s : Store) (k v : String) : Store :=
  match s with
  | [] => [(k, v)]
  | p :: rest => if p.1 == k then (k, v) :: rest else p :: Store.set rest k v

/-- `localStorage.removeItem(key)`. -/
def Store.remove (s : Store) (k : String) : Store :=
  List.filter (fun p => !(p.1 == k)) s

/-! ## JSON serialization (`JSON.stringify`), ECMA-404 integer fragment -/

/-- Decimal digit characters of a natural number (JS `String(n)` for
integral numbers). -/
def natToChars (n : Nat) : List Char :=
  if n = 0 then ['0'] else ((Nat.digits 10 n).map Nat.digitChar).reverse

/-- Decimal representation of an integer (JS number-to-string for the
integral numbers stored by this repository; `Int` has no negative zero). -/
def intToChars (i : Int) : List Char :=
  if i < 0 then '-' :: natToChars i.natAbs else natToChars i.toNat

/-- `JSON.stringify` escaping of one string character.  Control characters
(code points below 0x20) would be escaped with `\u` forms; the repository
data never contains them and the round-trip theorems restrict to this
printable fragment. -/
def escapeChar (c : Char) : List Char :=
  if c = '"' then ['\\', '"']
  else if c = '\\' then ['\\', '\\']
  else [c]

/-- `JSON.stringify` escaping of a character sequence. -/
def escChars : List Char → List Char
  | [] => []
  | c :: cs => escapeChar c ++ escChars cs

mutual

/-- `JSON.stringify` on a JSON value, as a character list. -/
def stringifyChars : JSON → List Char
  | .jnull => ['n', 'u', 'l', 'l']
  | .jbool true => ['t', 'r', 'u', 'e']
  | .jbool false => ['f', 'a', 'l', 's', 'e']
  | .jnum i => intToChars i
  | .jstr s => '"' :: escChars s.data ++ ['"']
  | .jarr l => '[' :: stringifyElems l ++ [']']
  | .jobj fs => '\x7b' :: stringifyFields fs ++ ['\x7d']

/-- Array elements joined by `,` (JS `Array.prototype.join` semantics). -/
def stringifyElems : List JSON → List Char
  | [] => []
  | [v] => stringifyChars v
  | v :: vs => stringifyChars v ++ ',' :: stringifyElems vs

/-- Object members `"key":value` joined by `,`, in insertion order. -/
def stringifyFields : List (String × JSON) → List Char
  | [] => []
  | [(k, v)] => '"' :: escChars k.data ++ '"' :: ':' :: stringifyChars v
  | (k, v) :: fs =>
      ('"' :: escChars k.data ++ '"' :: ':' :: stringifyChars v) ++
        ',' :: stringifyFields fs

end

/-- `JSON.stringify` producing a string.  Total on the AST (no circular
structures or bigints exist there, so the JS exceptions cannot occur). -/
def jsonStringify (j : JSON) : String := ⟨stringifyChars j⟩

/-! ## JSON parsing (`JSON.parse`), ECMA-404 integer fragment -/

/-- JSON insignificant whitespace. -/
def isWs (c : Char) : Bool :=
  c == ' ' || c == '\t' || c == '\n' || c == '\r'

/-- Drop leading JSON whitespace. -/
def skipWs : List Char → List Char
  | [] => []
  | c :: rest => if isWs c then skipWs rest else c :: rest

/-- Parse the body of a JSON string literal (opening quote already
consumed), returning the decoded characters and the remainder after the
closing quote.  Handles the escapes `\" \\ \/ \b \f \n \r \t`; raw control
characters are a syntax error, as in `JSON.parse`.  (`\u` escapes are
outside the modelled fragment; `JSON.stringify` never emits them for the
printable data this repository stores.) -/
def parseStringBody : List Char → Option (List Char × List Char)
  | [] => none
  | '"' :: rest => some ([], rest)
  | '\\' :: [] => none
  | '\\' :: e :: rest2 =>
    let dec : Option Char :=
      if e = '"' then some '"'
      else if e = '\\' then some '\\'
      else if e = '/' then some '/'
      else if e = 'n' then some '\n'
      else if e = 't' then some '\t'
      else if e = 'r' then some '\r'
      else if e = 'b' then some (Char.ofNat 8)
      else if e = 'f' then some (Char.ofNat 12)
      else none
    match dec with
    | none => none
    | some d =>
      match parseStringBody rest2 with
      | some (cs, rem) => some (d :: cs, rem)
      | none => none
  | c :: rest =>
    if c.toNat < 32 then none
    else
      match parseStringBody rest with
      | some (cs, rem) => some (c :: cs, rem)
      | none => none

/-- Split the longest leading run of decimal digits from the input. -/
def takeDigits : List Char → List Char × List Char
  | [] => ([], [])
  | c :: rest =>
    if c.isDigit then
      let p := takeDigits rest
      (c :: p.1, p.2)
    else ([], c :: rest)

/-- Numeric value of a big-endian digit-character list. -/
def digitsVal (l : List Char) : Nat :=
  l.foldl (fun a c => a * 10 + (c.toNat - 48)) 0

/-- Parse an unsigned JSON integer literal (no leading zeros, per the JSON
number grammar). -/
def parseUIntLit (l : List Char) : Option (Nat × List Char) :=
  match takeDigits l with
  | ([], _) => none
  | (ds, rem) =>
    if ds.head? = some '0' && decide (1 < ds.length) then none
    else some (digitsVal ds, rem)

/-- Parse a JSON integer literal with optional minus sign. -/
def parseIntLit (l : List Char) : Option (Int × List Char) :=
  match l with
  | [] => none
  | c :: rest =>
    if c = '-' then
      match parseUIntLit rest with
      | some (n, rem) => some (-(n : Int), rem)
      | none => none
    else
      match parseUIntLit (c :: rest) with
      | some (n, rem) => some ((n : Int), rem)
      | none => none

mutual

/-- Parse one JSON value, fuel-bounded.  The top-level entry point supplies
fuel amply larger than the number of recursive calls any input of that
length can cause, so the bound never fires on inputs `JSON.parse` accepts. -/
def parseVal : Nat → List Char → Option (JSON × List Char)
  | 0, _ => none
  | fuel + 1, l =>
    match skipWs l with
    | [] => none
    | c :: rest =>
      if c = 'n' then
        match rest with
        | 'u' :: 'l' :: 'l' :: rem => some (.jnull, rem)
        | _ => none
      else if c = 't' then
        match rest with
        | 'r' :: 'u' :: 'e' :: rem => some (.jbool true, rem)
        | _ => none
      else if c = 'f' then
        match rest with
        | 'a' :: 'l' :: 's' :: 'e' :: rem => some (.jbool false, rem)
        | _ => none
      else if c = '"' then
        match parseStringBody rest with
        | some (cs, rem) => some (.jstr ⟨cs⟩, rem)
        | none => none
      else if c = '[' then
        match skipWs rest with
        | ']' :: rem => some (.jarr [], rem)
        | _ =>
          match parseElems fuel rest with
          | some (es, rem) => some (.jarr es, rem)
          | none => none
      else if c = '\x7b' then
        match skipWs rest with
        | '\x7d' :: rem => some (.jobj [], rem)
        | _ =>
          match parseFields fuel rest with
          | some (fs, rem) => some (.jobj fs, rem)
          | none => none
      else if c = '-' || c.isDigit then
        match parseIntLit (c :: rest) with
        | some (n, rem) => some (.jnum n, rem)
        | none => none
      else none

/-- Parse the elements of a non-empty JSON array up to and including the
closing bracket. -/
def parseElems : Nat → List Char → Option (List JSON × List Char)
  | 0, _ => none
  | fuel + 1, l =>
    match parseVal fuel l with
    | none => none
    | some (v, rem) =>
      match skipWs rem with
      | ',' :: rem2 =>
        match parseElems fuel rem2 with
        | some (vs, r) => some (v :: vs, r)
        | none => none
      | ']' :: rem2 => some ([v], rem2)
      | _ => none

/-- Parse the members of a non-empty JSON object up to and including the
closing brace. -/
def parseFields : Nat → List Char → Option (List (String × JSON) × List Char)
  | 0, _ => none
  | fuel + 1, l =>
    match skipWs l with
    | '"' :: rest =>
      match parseStringBody rest with
      | none => none
      | some (k, rem) =>
        match skipWs rem with
        | ':' :: rem2 =>
          match parseVal fuel rem2 with
          | none => none
          | some (v, rem3) =>
            match skipWs rem3 with
            | ',' :: rem4 =>
              match parseFields fuel rem4 with
              | some (fs, r) => some ((⟨k⟩, v) :: fs, r)
              | none => none
            | '\x7d' :: rem4 => some ([(⟨k⟩, v)], rem4)
            | _ => none
        | _ => none
    | _ => none

end

/-- `JSON.parse`: parse a whole string (trailing whitespace allowed,
anything else after the value is a syntax error).  The fuel `4·|s| + 8`
exceeds the number of recursive parser calls possible on an input of this
length, so it never cuts off an accepting run. -/
def jsonParse (s : String) : Option JSON :=
  match parseVal (4 * s.data.length + 8) s.data with
  | some (v, rem) => if (skipWs rem).isEmpty then some v else none
  | none => none

/-! ## localStorage services

`part_001`'s `localStorageServiceLive` (permissive: a falsy stored item
yields `undefined`) and `part_000`'s `localStorageServiceLive` (strict: a
falsy stored item throws `LocalStorageError.NotFound`, which the
surrounding `Effect.try`'s `catch` hands to `LocalStorageError.parseError`).
-/

/-- Placeholder for the host `SyntaxError` message of a failed
`JSON.parse`; the exact host text is environment-specific and no claim
depends on it. -/
def jsonSyntaxMessage (s : String) : String :=
  "Unexpected token in JSON: " ++ s

/-- `part_001` `localStorageServiceLive.getItem<T>(key)`: returns
`undefined` when `!item` (key unset, i.e. `null`, or stored string empty),
else `JSON.parse(item)`; a parse exception is mapped through
`LocalStorageError.parseError` by `Effect.try`'s `catch`. -/
def getItem (store : Store) (key : String) :
    EffResult LocalStorageError (Option JSON) :=
  match Store.get store key with
  | none => .ok none
  | some s =>
    if s = "" then .ok none
    else
      match jsonParse s with
      | some j => .ok (some j)
      | none => .fail (LocalStorageError.parseError (.err (jsonSyntaxMessage s)))

/-- `part_001` `localStorageServiceLive.setItem<T>(key, value)`:
`JSON.stringify` then write.  On the values this program stores (plain
arrays and objects) `JSON.stringify` cannot throw, so the
`stringifyError` catch branch is unreachable and the effect always
succeeds, returning the updated store. -/
def setItem (store : Store) (key : String) (value : JSON) :
    EffResult LocalStorageError Unit × Store :=
  (.ok (), Store.set store key (jsonStringify value))

/-- `part_001` `localStorageServiceLive.removeItem(key)` (failures of the
synchronous `localStorage.removeItem` are not modelled; the error would be
built by `LocalStorageError.parseError`). -/
def removeItem (store : Store) (key : String) :
    EffResult LocalStorageError Unit × Store :=
  (.ok (), Store.remove store key)

/-- `part_000` `localStorageServiceLive.getItem<T>(key)` (strict variant):
`if (!item) throw LocalStorageError.NotFound(key)`; the `Effect.try`
`catch` then wraps **whatever** was thrown — including that `NotFound`
error — through `LocalStorageError.parseError`. -/
def getItem0 (store : Store) (key : String) :
    EffResult LocalStorageError JSON :=
  match Store.get store key with
  | none =>
    .fail (LocalStorageError.parseError
      (.err (LocalStorageError.NotFound key).message))
  | some s =>
    if s = "" then
      .fail (LocalStorageError.parseError
        (.err (LocalStorageError.NotFound key).message))
    else
      match jsonParse s with
      | some j => .ok j
      | none => .fail (LocalStorageError.parseError (.err (jsonSyntaxMessage s)))

/-! ## JavaScript dynamic operations on parsed values

The repositories call `Array.prototype` methods on values produced by the
unchecked cast `JSON.parse(item) as Array<User>`.  On a non-array value
`.find` / `.findIndex` raise a `TypeError`, and member access on `null`
raises a `TypeError`; inside `Effect.map` such an exception is a defect
(`die`), which `Effect.catchAll` does not intercept. -/

/-- JS falsiness of a parsed JSON value (`users || []`). -/
def jsFalsy : JSON → Bool
  | .jnull => true
  | .jbool b => !b
  | .jnum n => n == 0
  | .jstr s => s == ""
  | .jarr _ => false
  | .jobj _ => false

/-- Member access `v.name` on a parsed value: `null` throws a `TypeError`;
objects look the member up (in insertion order, matching JS property
access); every other value yields `undefined`. -/
def jsMember (v : JSON) (name : String) : JsOutcome (Option JSON) :=
  match v with
  | .jnull => .throw
  | .jobj fields => .ok ((List.find? (fun p => p.1 == name) fields).map (fun p => p.2))
  | _ => .ok none

/-- Strict equality `x === id` between a possibly-`undefined` member value
and a number: only a number with the same value compares equal. -/
def jsStrictEqNum (v : Option JSON) (n : Int) : Bool :=
  match v with
  | some (.jnum m) => m == n
  | _ => false

/-- `users.find((user) => user.id === id)` on the elements of a parsed
array (the callback may throw on a `null` element). -/
def jsFindById (l : List JSON) (id : Int) : JsOutcome (Option JSON) :=
  match l with
  | [] => .ok none
  | u :: rest =>
    match jsMember u "id" with
    | .throw => .throw
    | .ok v =>
      if jsStrictEqNum v id then .ok (some u)
      else jsFindById rest id

/-- `users.findIndex((u) => u.id === user.id)`: `-1` when no element
matches. -/
def jsFindIndexById (l : List JSON) (id : Int) : JsOutcome Int :=
  match l with
  | [] => .ok (-1)
  | u :: rest =>
    match jsMember u "id" with
    | .throw => .throw
    | .ok v =>
      if jsStrictEqNum v id then .ok 0
      else
        match jsFindIndexById rest id with
        | .throw => .throw
        | .ok i => .ok (if i < 0 then -1 else i + 1)

/-! ## User ↔ JSON conversion -/

/-- The object literal `{ ...user }` for a `User` record (own enumerable
properties in declaration order: `id` then `name`). -/
def userToJson (u : User) : JSON :=
  .jobj [("id", .jnum u.id), ("name", .jstr u.name)]

/-- A user collection as the JSON array the persisted implementation
stores under the `"users"` key. -/
def usersToJson (us : List User) : JSON :=
  .jarr (us.map userToJson)

/-- The seed collection `users = [{1, "User 1"}, {2, "User 2"}]`, defined
identically in `part_000`, `part_001` and by `Program.ts`'s `findAll`. -/
def users : List User :=
  [⟨1, "User 1"⟩, ⟨2, "User 2"⟩]

/-! ## Persisted repository, `part_001` (`userLocalStorageRepository`) -/

/-- The value bound to `users` after
`getItem("users").pipe(Effect.map(users => users || []), Effect.catchAll(() => Effect.succeed([])))`:
read failures are caught to `[]`, and a falsy parsed value (or an
`undefined` item) is coerced to `[]`. -/
def lsReadUsers (store : Store) : JSON :=
  match getItem store "users" with
  | .ok none => .jarr []
  | .ok (some j) => if jsFalsy j then .jarr [] else j
  | .fail _ => .jarr []
  | .die => .jarr []

/-- `part_001` `userLocalStorageRepository.findById(id)`: read the blob
(failures caught to `[]`), then `users.find((user) => user.id === id)` —
which throws a `TypeError` (a defect, not a typed failure) when the parsed
blob is a truthy non-array value. -/
def lsFindById (store : Store) (id : Int) :
    EffResult UserRepositoryError (Option JSON) :=
  match lsReadUsers store with
  | .jarr l =>
    match jsFindById l id with
    | .ok r => .ok r
    | .throw => .die
  | _ => .die

/-- `part_001` `userLocalStorageRepository.findAll()`: the read value after
`|| []` coercion and `catchAll`; returned as-is (no array method is called,
so this operation cannot throw). -/
def lsFindAll (store : Store) : EffResult UserRepositoryError JSON :=
  .ok (lsReadUsers store)

/-- `part_001` `userLocalStorageRepository.update(user)`: read the blob,
`findIndex`, replace the matched element by `{ ...user }` (or keep the
array when the id is absent), write back with `setItem`, and
`catchAll(() => Effect.succeed(void 0))`.  A typed read failure skips the
write (the failed effect short-circuits to `catchAll`), so the store is
unchanged; a truthy non-array parsed blob makes `findIndex` throw — a
defect that `catchAll` does not intercept.  Returns the result together
with the resulting store. -/
def lsUpdate (store : Store) (user : User) :
    EffResult UserRepositoryError Unit × Store :=
  match getItem store "users" with
  | .fail _ => (.ok (), store)
  | .die => (.die, store)
  | .ok got =>
    let usersVal : JSON :=
      match got with
      | none => .jarr []
      | some j => if jsFalsy j then .jarr [] else j
    match usersVal with
    | .jarr l =>
      match jsFindIndexById l user.id with
      | .throw => (.die, store)
      | .ok idx =>
        let newList : List JSON :=
          if idx < 0 then l
          else l.take idx.toNat ++ [userToJson user] ++ l.drop (idx.toNat + 1)
        match setItem store "users" (.jarr newList) with
        | (.ok _, store2) => (.ok (), store2)
        | (.fail _, store2) => (.ok (), store2)
        | (.die, store2) => (.die, store2)
    | _ => (.die, store)

/-! ## Persisted repository, `part_000` (`userLocalStorageRepositoryLive`) -/

/-- `part_000` `userLocalStorageRepositoryLive.findById(id)`: strict
`getItem` with `catchAll(() => Effect.succeed([]))` (no `|| []` coercion
in this file), then `users.find((user) => user.id === id)`. -/
def ls0FindById (store : Store) (id : Int) :
    EffResult UserRepositoryError (Option JSON) :=
  match getItem0 store "users" with
  | .fail _ =>
    -- caught: `users` is `[]`, and `[].find` yields `undefined`
    .ok none
  | .die => .die
  | .ok j =>
    match j with
    | .jarr l =>
      match jsFindById l id with
      | .ok r => .ok r
      | .throw => .die
    | _ => .die

/-- `part_000` `userLocalStorageRepositoryLive.findAll()`: strict `getItem`
with `catchAll(() => Effect.succeed([]))`; the value is returned as-is. -/
def ls0FindAll (store : Store) : EffResult UserRepositoryError JSON :=
  match getItem0 store "users" with
  | .fail _ => .ok (.jarr [])
  | .die => .die
  | .ok j => .ok j

/-! ## In-memory repositories -/

/-- `part_001` `inMemoryUserRepository.findById(id)`:
`users.find((user) => user.id === id)` on the module-level array (state
passed explicitly). -/
def inMemoryFindById (state : List User) (id : Int) : Option User :=
  state.find? (fun u => u.id == id)

/-- `part_001` `inMemoryUserRepository.findAll()`. -/
def inMemoryFindAll (state : List User) : List User :=
  state

/-- `part_001` `inMemoryUserRepository.update(user)`:
`users[users.findIndex((u) => u.id === user.id)] = user`.  When the id is
absent `findIndex` yields `-1` and the assignment `users[-1] = user`
creates a non-index property on the array object; the array's elements
`0 … length-1` — all that `find`, iteration and serialization observe —
are unchanged, which the list model renders as the identity. -/
def inMemoryUpdate (state : List User) (user : User) : List User :=
  match state.findIdx? (fun u => u.id == user.id) with
  | some i => state.set i user
  | none => state

/-- `part_000` `userInmemoryRepositoryLive.findById(id)` (same body as the
`part_001` in-memory repository, over that file's module-level `users`). -/
def inmemory0FindById (state : List User) (id : Int) : Option User :=
  state.find? (fun u => u.id == id)

/-- `part_000` `userInmemoryRepositoryLive.findAll()`. -/
def inmemory0FindAll (state : List User) : List User :=
  state

/-! ## `Program.ts`: context, services and program -/

/-- The `UserRepository` service interface of `Program.ts` (operations are
infallible there: `Effect.Effect<User>` with no error channel). -/
structure UserRepoImpl where
  findById : Int → User
  findAll : Unit → List User

/-- The `UserService` interface of `Program.ts`. -/
structure UserServiceImpl where
  getUser : Int → User

/-- `Program.ts` `userRepositoryLive`: `findById` builds
`{ id, name: "User " + id }` for **any** queried id; `findAll` returns the
fixed two-user list. -/
def userRepositoryLive : UserRepoImpl :=
  ⟨fun id => ⟨id, "User " ++ toString id⟩, fun _ => users⟩

/-- `Program.ts` `userServiceLive`. -/
def userServiceLive : UserServiceImpl :=
  ⟨fun id => ⟨id, "User " ++ toString id⟩⟩

/-- The context `program` runs in: the `UserRepository` binding plus the
optional `UserService` binding looked up with `Effect.serviceOption`. -/
structure ProgramContext where
  userRepository : UserRepoImpl
  userService : Option UserServiceImpl

/-- A value handed to `console.log` in one of the demos. -/
inductive ConsoleValue where
  | ofUser : User → ConsoleValue
  | ofOptUser : Option User → ConsoleValue
  | ofUserList : List User → ConsoleValue
  | ofOptJson : Option JSON → ConsoleValue
  | ofJson : JSON → ConsoleValue

/-- `Program.ts` `program`: `Effect.serviceOption(UserService)` never
fails; when the service is absent the first user is the fallback
`{ id: 1, name: "Optional User" }`, otherwise it is
`userRepository.findById(1)`.  The program prints two lines. -/
def program (ctx : ProgramContext) : List (String × ConsoleValue) :=
  let user : User :=
    match ctx.userService with
    | none => ⟨1, "Optional User"⟩
    | some _ => ctx.userRepository.findById 1
  let user2 : User := ctx.userRepository.findById 2
  [("userService", .ofUser user), ("userRepository", .ofUser user2)]

/-- The context `Effect.runSync` provides in `Program.ts`: both services
bound. -/
def mainProgramContext : ProgramContext :=
  ⟨userRepositoryLive, some userServiceLive⟩

/-! ## Demo workflows of `part_000` and `part_001` -/

/-- `part_000` `main` over `userLocalStorageRepositoryLive`: three lookups
(`findById 1`, `findById 2`, `findAll`), then three `console.log` lines.
A failure or defect in any lookup aborts the run before anything prints. -/
def main000 (store : Store) :
    EffResult UserRepositoryError (List (String × ConsoleValue)) :=
  match ls0FindById store 1 with
  | .fail e => .fail e
  | .die => .die
  | .ok u1 =>
    match ls0FindById store 2 with
    | .fail e => .fail e
    | .die => .die
    | .ok u2 =>
      match ls0FindAll store with
      | .fail e => .fail e
      | .die => .die
      | .ok all =>
        .ok [("user1", .ofOptJson u1), ("user2", .ofOptJson u2),
             ("all", .ofJson all)]

/-- The two repository layers of `part_001`. -/
inductive RepoLayer where
  | inMemory : RepoLayer
  | localStorage : RepoLayer
deriving DecidableEq, Repr

/-- `part_001` `selectUserRepositoryLayer(isDevelopment)`. -/
def selectUserRepositoryLayer (isDevelopment : Bool) : RepoLayer :=
  if isDevelopment then .inMemory else .localStorage

/-- The layer `part_001`'s `Effect.runSync` call selects:
`selectUserRepositoryLayer(process.env.BUN_ENV === "development")`, the
environment variable read once at startup (`none` models an unset
variable, for which `===` is `false`). -/
def chosenLayer (bunEnv : Option String) : RepoLayer :=
  selectUserRepositoryLayer (bunEnv == some "development")

/-- `part_001` `main` under a given repository layer: three lookups
(`findById 1`, `findById 2`, `findAll`), then three `console.log` lines.
The in-memory layer runs over the module-level seed collection. -/
def main001 (layer : RepoLayer) (store : Store) :
    EffResult UserRepositoryError (List (String × ConsoleValue)) :=
  match layer with
  | .inMemory =>
    .ok [("user1", .ofOptUser (inMemoryFindById users 1)),
         ("user2", .ofOptUser (inMemoryFindById users 2)),
         ("all", .ofUserList (inMemoryFindAll users))]
  | .localStorage =>
    match lsFindById store 1 with
    | .fail e => .fail e
    | .die => .die
    | .ok u1 =>
      match lsFindById store 2 with
      | .fail e => .fail e
      | .die => .die
      | .ok u2 =>
        match lsFindAll store with
        | .fail e => .fail e
        | .die => .die
        | .ok all =>
          .ok [("user1", .ofOptJson u1), ("user2", .ofOptJson u2),
               ("all", .ofJson all)]

/-! ## Safety predicates for the dynamic operations -/

/-- `true` exactly on JSON `null` (the only parsed value whose member
access throws). -/
def jsonIsNull : JSON → Bool
  | .jnull => true
  | _ => false

/-- The parsed blob is an array without `null` elements, so `find` /
`findIndex` callbacks cannot throw on it. -/
def nullFreeArr : JSON → Bool
  | .jarr l => l.all (fun e => !jsonIsNull e)
  | _ => false

/-- Store states on which `part_000`'s persisted operations cannot raise a
defect: the strict read fails (caught to `[]`) or yields a null-free
array. -/
def store000Safe (store : Store) : Bool :=
  match getItem0 store "users" with
  | .fail _ => true
  | .die => false
  | .ok j => nullFreeArr j

/-- Store states on which `part_001`'s persisted operations cannot raise a
defect: the read fails (caught), yields `undefined`, or yields a falsy or
null-free-array value. -/
def store001Safe (store : Store) : Bool :=
  match getItem store "users" with
  | .fail _ => true
  | .die => false
  | .ok none => true
  | .ok (some j) => jsFalsy j || nullFreeArr j

/-- The characters of a stored string are printable (code at least 0x20):
the fragment of JSON string escaping modelled here — `JSON.stringify`
would emit `\u` escapes for control characters, which never occur in the
repository's data. -/
def nameOk (s : String) : Bool :=
  s.data.all (fun c => decide (32 ≤ c.toNat))

/-- Every user name in the collection is printable. -/
def usersWF (us : List User) : Bool :=
  us.all (fun u => nameOk u.name)

/-! ## Helper lemmas: dynamic operations on well-shaped values -/

/-- Member access never throws on a non-`null` value. -/
theorem jsMember_ok_of_not_null (v : JSON) (name : String)
    (h : jsonIsNull v = false) : ∃ r, jsMember v name = .ok r := by
  cases v with
  | jnull => simp [jsonIsNull] at h
  | jbool b => exact ⟨none, rfl⟩
  | jnum n => exact ⟨none, rfl⟩
  | jstr s => exact ⟨none, rfl⟩
  | jarr l => exact ⟨none, rfl⟩
  | jobj fields => exact ⟨_, rfl⟩

/-- `find` cannot throw on a null-free element list. -/
theorem jsFindById_ok_of_null_free (l : List JSON) (id : Int)
    (h : ∀ e ∈ l, jsonIsNull e = false) : ∃ r, jsFindById l id = .ok r := by
  induction l with
  | nil => exact ⟨none, rfl⟩
  | cons u rest ih =>
    obtain ⟨r, hr⟩ := jsMember_ok_of_not_null u "id" (h u (by simp))
    obtain ⟨r2, hr2⟩ := ih (fun e he => h e (by simp [he]))
    by_cases hm : jsStrictEqNum r id
    · exact ⟨some u, by simp [jsFindById, hr, hm]⟩
    · exact ⟨r2, by simp [jsFindById, hr, hm, hr2]⟩

/-- `findIndex` cannot throw on a null-free element list. -/
theorem jsFindIndexById_ok_of_null_free (l : List JSON) (id : Int)
    (h : ∀ e ∈ l, jsonIsNull e = false) : ∃ i, jsFindIndexById l id = .ok i := by
  induction l with
  | nil => exact ⟨-1, rfl⟩
  | cons u rest ih =>
    obtain ⟨r, hr⟩ := jsMember_ok_of_not_null u "id" (h u (by simp))
    obtain ⟨i, hi⟩ := ih (fun e he => h e (by simp [he]))
    by_cases hm : jsStrictEqNum r id
    · exact ⟨0, by simp [jsFindIndexById, hr, hm]⟩
    · exact ⟨if i < 0 then -1 else i + 1, by simp [jsFindIndexById, hr, hm, hi]⟩

/-- Member access `u.id` on a serialized user object. -/
theorem jsMember_userToJson (u : User) :
    jsMember (userToJson u) "id" = .ok (some (.jnum u.id)) := rfl

/-- `find((user) => user.id === id)` over serialized users agrees with
`find?` over the user list. -/
theorem jsFindById_map_users (us : List User) (id : Int) :
    jsFindById (us.map userToJson) id =
      .ok ((us.find? (fun u => u.id == id)).map userToJson) := by
  induction us with
  | nil => rfl
  | cons u rest ih =>
    by_cases h : u.id == id
    · simp [jsFindById, jsMember_userToJson, jsStrictEqNum, List.find?_cons, h]
    · simp [jsFindById, jsMember_userToJson, jsStrictEqNum, List.find?_cons, h, ih]

/-- `findIndex((u) => u.id === user.id)` over serialized users agrees with
`findIdx?` over the user list (`-1` encodes absence). -/
theorem jsFindIndexById_map_users (us : List User) (id : Int) :
    jsFindIndexById (us.map userToJson) id =
      .ok (match us.findIdx? (fun u => u.id == id) with
           | some i => (i : Int)
           | none => -1) := by
  induction us with
  | nil => rfl
  | cons u rest ih =>
    by_cases h : u.id == id
    · simp [jsFindIndexById, jsMember_userToJson, jsStrictEqNum, List.findIdx?_cons, h]
    · simp only [List.map_cons, jsFindIndexById, jsMember_userToJson, jsStrictEqNum, h,
        if_false, ih, List.findIdx?_cons, Bool.false_eq_true]
      cases hidx : rest.findIdx? (fun u => u.id == id) with
      | none => simp [hidx]
      | some i =>
        have hnonneg : ¬((i : Int) < 0) := by omega
        simp [hidx, hnonneg]

/-- The empty string does not parse (`JSON.parse("")` is a syntax
error). -/
theorem jsonParse_empty : jsonParse "" = none := rfl

/-- A stored blob that parses yields exactly its parsed value from the
permissive `getItem`. -/
theorem getItem_of_parse (store : Store) (k b : String) (j : JSON)
    (hget : Store.get store k = some b) (hparse : jsonParse b = some j) :
    getItem store k = .ok (some j) := by
  have hne : b ≠ "" := by
    intro h
    rw [h, jsonParse_empty] at hparse
    cases hparse
  unfold getItem
  rw [hget]
  simp [hne, hparse]

/-- A stored blob that parses to a non-falsy value is the collection value
`part_001`'s repository operations work on. -/
theorem lsReadUsers_of_parse (store : Store) (b : String) (j : JSON)
    (hget : Store.get store "users" = some b) (hparse : jsonParse b = some j)
    (hfalsy : jsFalsy j = false) : lsReadUsers store = j := by
  unfold lsReadUsers
  rw [getItem_of_parse store "users" b j hget hparse]
  simp [hfalsy]

/-- A serialized user collection is never falsy (arrays are truthy in
JS). -/
theorem jsFalsy_usersToJson (us : List User) : jsFalsy (usersToJson us) = false := rfl

/-- An id present in a list makes `find?` return a record with that id. -/
theorem find_id_of_mem (l : List User) (id : Int) (h : ∃ v ∈ l, v.id = id) :
    ∃ w, l.find? (fun u => u.id == id) = some w ∧ w.id = id := by
  induction l with
  | nil => simp at h
  | cons x xs ih =>
    by_cases hx : x.id == id
    · exact ⟨x, by simp [List.find?_cons, hx], by simpa using hx⟩
    · obtain ⟨v, hv, hvid⟩ := h
      rcases List.mem_cons.mp hv with hv1 | hv1
      · subst hv1; simp [hvid] at hx
      · obtain ⟨w, hw, hwid⟩ := ih ⟨v, hv1, hvid⟩
        exact ⟨w, by simp [List.find?_cons, hx, hw], hwid⟩

/-- A stored blob that parses yields exactly its parsed value from the
strict `getItem` of `part_000`. -/
theorem getItem0_of_parse (store : Store) (k b : String) (j : JSON)
    (hget : Store.get store k = some b) (hparse : jsonParse b = some j) :
    getItem0 store k = .ok j := by
  have hne : b ≠ "" := by
    intro h
    rw [h, jsonParse_empty] at hparse
    cases hparse
  unfold getItem0
  rw [hget]
  simp [hne, hparse]

/-! ## Claim theorems -/

/-- **C7**: the composition root of `part_001` selects the repository
layer from the single environment variable `BUN_ENV`, read once at
startup: the value `"development"` selects the in-memory layer, every
other value — including an unset variable — selects the persisted
(localStorage) layer. -/
theorem layer_selection_by_env (env : Option String) :
    chosenLayer env =
      if env = some "development" then RepoLayer.inMemory
      else RepoLayer.localStorage := by
  unfold chosenLayer selectUserRepositoryLayer
  by_cases h : env = some "development" <;> simp [h]

/-- **C3**: for every id present in the seed collection
`[{1, "User 1"}, {2, "User 2"}]`, `findById(id)` of both in-memory
repository implementations (`part_000`'s `userInmemoryRepositoryLive` and
`part_001`'s `inMemoryUserRepository`) succeeds with a record whose `id`
field equals the queried id. -/
theorem inmemory_findById_seed_ids (id : Int) (h : ∃ v ∈ users, v.id = id) :
    (∃ w, inmemory0FindById users id = some w ∧ w.id = id) ∧
    (∃ w, inMemoryFindById users id = some w ∧ w.id = id) := by
  obtain ⟨w, hw, hid⟩ := find_id_of_mem users id h
  exact ⟨⟨w, hw, hid⟩, ⟨w, hw, hid⟩⟩

/-- Witness for C3 at the seed id `1`. -/
theorem inmemory_findById_seed_ids_witness :
    (∃ v ∈ users, v.id = 1) ∧
    ((∃ w, inmemory0FindById users 1 = some w ∧ w.id = 1) ∧
     (∃ w, inMemoryFindById users 1 = some w ∧ w.id = 1)) := by
  have h : ∃ v ∈ users, v.id = 1 := ⟨⟨1, "User 1"⟩, by simp [users], rfl⟩
  exact ⟨h, inmemory_findById_seed_ids 1 h⟩

/-- **C9**: the permissive `getItem` of `part_001` succeeds with
`undefined` both when the key is unset and when the stored string is empty
(the `!item` falsiness test), so an empty stored string never reaches
`JSON.parse` and never produces a parse failure. -/
theorem permissive_getItem_falsy_absent (store : Store) (k : String)
    (h : Store.get store k = none ∨ Store.get store k = some "") :
    getItem store k = .ok none := by
  unfold getItem
  rcases h with h | h
  · rw [h]
  · rw [h]
    simp

/-- Witness for C9 at a store holding the empty string under `"users"`. -/
theorem permissive_getItem_falsy_absent_witness :
    (Store.get [("users", "")] "users" = none ∨
      Store.get [("users", "")] "users" = some "") ∧
    getItem [("users", "")] "users" = .ok none :=
  ⟨Or.inr rfl, permissive_getItem_falsy_absent [("users", "")] "users" (Or.inr rfl)⟩

/-- **C10**: in `Program.ts`, the optional `UserService` dependency is
looked up with `Effect.serviceOption`, which never fails (the program is a
total function of its context in this model): without the service the
first printed user is the fallback `{id: 1, name: "Optional User"}`; with
it, the first printed user is `userRepository.findById(1)`. -/
theorem program_optional_service (ctx : ProgramContext) :
    (ctx.userService = none →
      program ctx =
        [("userService", .ofUser ⟨1, "Optional User"⟩),
         ("userRepository", .ofUser (ctx.userRepository.findById 2))]) ∧
    (∀ s, ctx.userService = some s →
      program ctx =
        [("userService", .ofUser (ctx.userRepository.findById 1)),
         ("userRepository", .ofUser (ctx.userRepository.findById 2))]) := by
  constructor
  · intro h
    unfold program
    rw [h]
  · intro s h
    unfold program
    rw [h]

/-- Witness for C10 at the context `Program.ts` actually provides (both
services bound). -/
theorem program_optional_service_witness :
    mainProgramContext.userService = some userServiceLive ∧
    program mainProgramContext =
      [("userService", .ofUser (mainProgramContext.userRepository.findById 1)),
       ("userRepository", .ofUser (mainProgramContext.userRepository.findById 2))] :=
  ⟨rfl, (program_optional_service mainProgramContext).2 userServiceLive rfl⟩

/-- On a safe store, `part_001`'s `findById` cannot raise a defect. -/
theorem lsFindById_ok_of_safe (store : Store) (id : Int)
    (h : store001Safe store = true) : ∃ r, lsFindById store id = .ok r := by
  unfold store001Safe at h
  unfold lsFindById lsReadUsers
  cases hg : getItem store "users" with
  | fail e => exact ⟨none, rfl⟩
  | die => rw [hg] at h; exact Bool.noConfusion h
  | ok got =>
    rw [hg] at h
    cases got with
    | none => exact ⟨none, rfl⟩
    | some j =>
      dsimp only at h ⊢
      by_cases hf : jsFalsy j = true
      · simp only [hf, if_true]
        exact ⟨none, rfl⟩
      · simp only [Bool.not_eq_true] at hf
        rw [hf] at h
        simp only [Bool.false_or] at h
        simp only [hf, Bool.false_eq_true, if_false]
        cases j with
        | jarr l =>
          have hnn : ∀ e ∈ l, jsonIsNull e = false := by
            simpa [nullFreeArr] using h
          obtain ⟨r, hr⟩ := jsFindById_ok_of_null_free l id hnn
          dsimp only
          rw [hr]
          exact ⟨r, rfl⟩
        | jnull => simp [nullFreeArr] at h
        | jbool b => simp [nullFreeArr] at h
        | jnum n => simp [nullFreeArr] at h
        | jstr s => simp [nullFreeArr] at h
        | jobj fs => simp [nullFreeArr] at h

/-- On a safe store, `part_001`'s `update` cannot raise a defect: it
succeeds with unit. -/
theorem lsUpdate_ok_of_safe (store : Store) (u : User)
    (h : store001Safe store = true) :
    ∃ st, lsUpdate store u = (.ok (), st) := by
  unfold store001Safe at h
  unfold lsUpdate
  cases hg : getItem store "users" with
  | fail e => exact ⟨store, rfl⟩
  | die => rw [hg] at h; exact Bool.noConfusion h
  | ok got =>
    rw [hg] at h
    cases got with
    | none => exact ⟨_, rfl⟩
    | some j =>
      dsimp only at h ⊢
      by_cases hf : jsFalsy j = true
      · simp only [hf, if_true]
        exact ⟨_, rfl⟩
      · simp only [Bool.not_eq_true] at hf
        rw [hf] at h
        simp only [Bool.false_or] at h
        simp only [hf, Bool.false_eq_true, if_false]
        cases j with
        | jarr l =>
          have hnn : ∀ e ∈ l, jsonIsNull e = false := by
            simpa [nullFreeArr] using h
          obtain ⟨i, hi⟩ := jsFindIndexById_ok_of_null_free l u.id hnn
          dsimp only
          rw [hi]
          exact ⟨_, rfl⟩
        | jnull => simp [nullFreeArr] at h
        | jbool b => simp [nullFreeArr] at h
        | jnum n => simp [nullFreeArr] at h
        | jstr s => simp [nullFreeArr] at h
        | jobj fs => simp [nullFreeArr] at h

/-- On a safe store, `part_000`'s `findById` cannot raise a defect. -/
theorem ls0FindById_ok_of_safe (store : Store) (id : Int)
    (h : store000Safe store = true) : ∃ r, ls0FindById store id = .ok r := by
  unfold store000Safe at h
  unfold ls0FindById
  cases hg : getItem0 store "users" with
  | fail e => exact ⟨none, rfl⟩
  | die => rw [hg] at h; exact Bool.noConfusion h
  | ok j =>
    rw [hg] at h
    dsimp only at h ⊢
    cases j with
    | jarr l =>
      have hnn : ∀ e ∈ l, jsonIsNull e = false := by
        simpa [nullFreeArr] using h
      obtain ⟨r, hr⟩ := jsFindById_ok_of_null_free l id hnn
      dsimp only
      rw [hr]
      exact ⟨r, rfl⟩
    | jnull => simp [nullFreeArr] at h
    | jbool b => simp [nullFreeArr] at h
    | jnum n => simp [nullFreeArr] at h
    | jstr s => simp [nullFreeArr] at h
    | jobj fs => simp [nullFreeArr] at h

/-- `part_000`'s `findAll` never fails: a read failure is caught to `[]`
and a successful read is returned as-is. -/
theorem ls0FindAll_isOk (store : Store) : (ls0FindAll store).isOk = true := by
  unfold ls0FindAll getItem0
  cases h : Store.get store "users" with
  | none => rfl
  | some s =>
    by_cases he : s = ""
    · simp [he, EffResult.isOk]
    · cases hp : jsonParse s <;> simp [he, hp, EffResult.isOk]

/-- **C1** (amended): for every store state, `findAll` of both persisted
implementations never fails; a typed storage read failure inside
`findById`/`findAll` is caught and yields the empty-collection result
(`undefined` / `[]`); `update` catches a read failure and succeeds with
unit leaving the store untouched; and on every store whose blob is
absent, empty, unparseable, falsy, or a null-free JSON array, `findById`
and `update` also succeed.  (The original claim fails on a blob parsing
to a truthy non-array value: see the counterexample, where `findById`
crashes with an unhandled `TypeError` defect that `catchAll` does not
intercept.) -/
theorem persisted_storage_failures_swallowed (store : Store) :
    (∀ e, getItem store "users" = .fail e →
      (∀ id, lsFindById store id = .ok none) ∧
      lsFindAll store = .ok (.jarr []) ∧
      (∀ u, lsUpdate store u = (.ok (), store))) ∧
    (lsFindAll store).isOk = true ∧
    (∀ e, getItem0 store "users" = .fail e →
      (∀ id, ls0FindById store id = .ok none) ∧
      ls0FindAll store = .ok (.jarr [])) ∧
    (ls0FindAll store).isOk = true ∧
    (store001Safe store = true →
      (∀ id, ∃ r, lsFindById store id = .ok r) ∧
      (∀ u, ∃ st, lsUpdate store u = (.ok (), st))) ∧
    (store000Safe store = true →
      ∀ id, ∃ r, ls0FindById store id = .ok r) := by
  refine ⟨?_, rfl, ?_, ls0FindAll_isOk store, ?_, ?_⟩
  · intro e he
    refine ⟨?_, ?_, ?_⟩
    · intro id
      unfold lsFindById lsReadUsers
      rw [he]
      rfl
    · unfold lsFindAll lsReadUsers
      rw [he]
    · intro u
      unfold lsUpdate
      rw [he]
  · intro e he
    constructor
    · intro id
      unfold ls0FindById
      rw [he]
    · unfold ls0FindAll
      rw [he]
  · intro hsafe
    exact ⟨fun id => lsFindById_ok_of_safe store id hsafe,
           fun u => lsUpdate_ok_of_safe store u hsafe⟩
  · intro hsafe
    exact fun id => ls0FindById_ok_of_safe store id hsafe

/-- Counterexample to C1 as stated: on the store whose `"users"` blob is
the JSON text `"5"`, the blob parses to the truthy non-array value `5`,
`users.find` raises a `TypeError` inside `Effect.map`, and `findById`
evaluates to a defect — the persisted operation *does* fail for this
key-value store state. -/
theorem persisted_findById_defect_on_nonarray_blob :
    lsFindById [("users", "5")] 1 = .die := rfl

/-- Witness for C1 at the store whose `"users"` blob is the unparseable
text `"?"` (a storage read failure) — all three `part_001` operations
swallow it — and the same store satisfies the safety condition. -/
theorem persisted_storage_failures_swallowed_witness :
    getItem [("users", "?")] "users" =
      .fail (LocalStorageError.parseError (.err (jsonSyntaxMessage "?"))) ∧
    lsFindById [("users", "?")] 1 = .ok none ∧
    lsFindAll [("users", "?")] = .ok (.jarr []) ∧
    lsUpdate [("users", "?")] ⟨1, "Changed"⟩ = (.ok (), [("users", "?")]) ∧
    store001Safe [("users", "?")] = true := by
  have h := (persisted_storage_failures_swallowed [("users", "?")]).1
    (LocalStorageError.parseError (.err (jsonSyntaxMessage "?"))) rfl
  exact ⟨rfl, h.1 1, h.2.1, h.2.2 ⟨1, "Changed"⟩, rfl⟩

/-- **C4** (amended): for an id absent from the collection, the in-memory
and persisted `findById` of both storage demos return `undefined` — every
one of those four implementations uses the permissive behaviour, none
fails with `RepositoryNotFound`; `Program.ts`'s `userRepositoryLive`,
however, fabricates and returns the record `{id, name: "User " + id}` for
**every** queried id, including ids absent from its own `findAll`
collection (see the counterexample). -/
theorem findById_absent_behaviour (id : Int) :
    ((∀ v ∈ users, v.id ≠ id) → inmemory0FindById users id = none) ∧
    ((∀ v ∈ users, v.id ≠ id) → inMemoryFindById users id = none) ∧
    (∀ store b us, Store.get store "users" = some b →
        jsonParse b = some (usersToJson us) → (∀ v ∈ us, v.id ≠ id) →
        lsFindById store id = .ok none) ∧
    (∀ store b us, Store.get store "users" = some b →
        jsonParse b = some (usersToJson us) → (∀ v ∈ us, v.id ≠ id) →
        ls0FindById store id = .ok none) ∧
    userRepositoryLive.findById id = ⟨id, "User " ++ toString id⟩ := by
  refine ⟨?_, ?_, ?_, ?_, rfl⟩
  · intro h
    unfold inmemory0FindById
    exact List.find?_eq_none.mpr (fun v hv => by simpa using h v hv)
  · intro h
    unfold inMemoryFindById
    exact List.find?_eq_none.mpr (fun v hv => by simpa using h v hv)
  · intro store b us hget hparse h
    have hread := lsReadUsers_of_parse store b (usersToJson us) hget hparse
      (jsFalsy_usersToJson us)
    have hfind : us.find? (fun u => u.id == id) = none :=
      List.find?_eq_none.mpr (fun v hv => by simpa using h v hv)
    unfold lsFindById
    rw [hread]
    unfold usersToJson
    dsimp only
    rw [jsFindById_map_users, hfind]
    rfl
  · intro store b us hget hparse h
    have hfind : us.find? (fun u => u.id == id) = none :=
      List.find?_eq_none.mpr (fun v hv => by simpa using h v hv)
    unfold ls0FindById
    rw [getItem0_of_parse store "users" b (usersToJson us) hget hparse]
    unfold usersToJson
    dsimp only
    rw [jsFindById_map_users, hfind]
    rfl

/-- Counterexample to C4 as stated: the id `3` is absent from
`Program.ts`'s collection (its `findAll` returns only ids 1 and 2), yet
`userRepositoryLive.findById(3)` neither returns "absent" nor fails — it
fabricates and returns the record `{id: 3, name: "User 3"}`. -/
theorem program_ts_findById_fabricates :
    userRepositoryLive.findById 3 = ⟨3, "User 3"⟩ ∧
    (userRepositoryLive.findAll ()).find? (fun u => u.id == 3) = none := by
  constructor <;> decide

/-- Witness for C4 at id `3` with the empty persisted collection. -/
theorem findById_absent_behaviour_witness :
    (∀ v ∈ users, v.id ≠ (3 : Int)) ∧
    inmemory0FindById users 3 = none ∧
    inMemoryFindById users 3 = none ∧
    lsFindById [("users", "[]")] 3 = .ok none ∧
    ls0FindById [("users", "[]")] 3 = .ok none := by
  have h3 : ∀ v ∈ users, v.id ≠ (3 : Int) := by decide
  have habs : ∀ v ∈ ([] : List User), v.id ≠ (3 : Int) := by simp
  have h := findById_absent_behaviour 3
  exact ⟨h3, h.1 h3, h.2.1 h3,
    h.2.2.1 [("users", "[]")] "[]" [] rfl rfl habs,
    h.2.2.2.1 [("users", "[]")] "[]" [] rfl rfl habs⟩

/-- **C5** (amended): in the strict key-value store variant of
`part_000`, an unset key makes `getItem` throw the key-not-found error
internally, but the `catch` of `Effect.try` re-wraps whatever was thrown
through the **parse-failure factory**: the surfaced failure has the
parse kind and its message embeds (double-prefixes) the key-not-found
message.  Undeserializable stored content fails with the parse-failure
kind wrapping the JSON syntax error. -/
theorem strict_getItem_error_kinds (store : Store) (k s : String) :
    (Store.get store k = none →
      getItem0 store k =
        .fail (LocalStorageError.parseError
          (.err (LocalStorageError.NotFound k).message)) ∧
      (LocalStorageError.parseError
        (.err (LocalStorageError.NotFound k).message)).kind = .parse ∧
      (LocalStorageError.parseError
        (.err (LocalStorageError.NotFound k).message)).message =
        "LocalStorageError: " ++ (LocalStorageError.NotFound k).message) ∧
    (Store.get store k = some s → s ≠ "" → jsonParse s = none →
      getItem0 store k =
        .fail (LocalStorageError.parseError (.err (jsonSyntaxMessage s))) ∧
      (LocalStorageError.parseError (.err (jsonSyntaxMessage s))).kind = .parse) := by
  constructor
  · intro h
    refine ⟨?_, rfl, rfl⟩
    unfold getItem0
    rw [h]
  · intro h hne hp
    refine ⟨?_, rfl⟩
    unfold getItem0
    rw [h]
    simp [hne, hp]

/-- Counterexample to C5 as stated: for the unset key `"users"` in the
empty store, the strict `getItem` does **not** fail with the
key-not-found kind: the surfaced error was built by the parse-failure
factory and its message carries the doubled class prefix. -/
theorem strict_getItem_unset_key_wrapped :
    getItem0 [] "users" =
      .fail ⟨.parse,
        "LocalStorageError: LocalStorageError: LocalStorage key users not found"⟩ ∧
    (LocalStorageError.NotFound "users").kind = .notFound ∧
    LSKind.parse ≠ LSKind.notFound := by
  refine ⟨rfl, rfl, by decide⟩

/-- Witness for C5: the unset key case on the empty store and the
unparseable-content case on a store holding `"?"`. -/
theorem strict_getItem_error_kinds_witness :
    (getItem0 [] "k" =
        .fail (LocalStorageError.parseError
          (.err (LocalStorageError.NotFound "k").message)) ∧
      (LocalStorageError.parseError
        (.err (LocalStorageError.NotFound "k").message)).kind = .parse ∧
      (LocalStorageError.parseError
        (.err (LocalStorageError.NotFound "k").message)).message =
        "LocalStorageError: " ++ (LocalStorageError.NotFound "k").message) ∧
    (getItem0 [("k", "?")] "k" =
        .fail (LocalStorageError.parseError (.err (jsonSyntaxMessage "?"))) ∧
      (LocalStorageError.parseError (.err (jsonSyntaxMessage "?"))).kind = .parse) :=
  ⟨(strict_getItem_error_kinds [] "k" "").1 rfl,
   (strict_getItem_error_kinds [("k", "?")] "k" "?").2 rfl (by decide) rfl⟩

/-- **C8** (amended): the storage demos of `part_000` and `part_001` each
print exactly three lines — the two single-user lookups then the full
listing, in that order (for `part_001` under either layer; for the
persisted layers on every store state that does not crash the lookups) —
but the first demo (`Program.ts`) prints exactly **two** lines: the two
single-user lookups, with no full listing (see the counterexample). -/
theorem demo_output_lines :
    (∀ ctx : ProgramContext, ∃ v1 v2,
      program ctx = [("userService", v1), ("userRepository", v2)]) ∧
    (∀ store, store000Safe store = true →
      ∃ r1 r2 rall,
        ls0FindById store 1 = .ok r1 ∧ ls0FindById store 2 = .ok r2 ∧
        ls0FindAll store = .ok rall ∧
        main000 store = .ok
          [("user1", .ofOptJson r1), ("user2", .ofOptJson r2),
           ("all", .ofJson rall)]) ∧
    (∀ store, main001 .inMemory store = .ok
      [("user1", .ofOptUser (inMemoryFindById users 1)),
       ("user2", .ofOptUser (inMemoryFindById users 2)),
       ("all", .ofUserList (inMemoryFindAll users))]) ∧
    (∀ store, store001Safe store = true →
      ∃ r1 r2 rall,
        lsFindById store 1 = .ok r1 ∧ lsFindById store 2 = .ok r2 ∧
        lsFindAll store = .ok rall ∧
        main001 .localStorage store = .ok
          [("user1", .ofOptJson r1), ("user2", .ofOptJson r2),
           ("all", .ofJson rall)]) := by
  refine ⟨fun ctx => ?_, fun store hs => ?_, fun store => rfl, fun store hs => ?_⟩
  · unfold program
    cases ctx.userService with
    | none => exact ⟨_, _, rfl⟩
    | some s => exact ⟨_, _, rfl⟩
  · obtain ⟨r1, h1⟩ := ls0FindById_ok_of_safe store 1 hs
    obtain ⟨r2, h2⟩ := ls0FindById_ok_of_safe store 2 hs
    have hallOk := ls0FindAll_isOk store
    cases hall : ls0FindAll store with
    | ok rall =>
      refine ⟨r1, r2, rall, h1, h2, rfl, ?_⟩
      unfold main000
      rw [h1, h2, hall]
    | fail e => rw [hall] at hallOk; exact Bool.noConfusion hallOk
    | die => rw [hall] at hallOk; exact Bool.noConfusion hallOk
  · obtain ⟨r1, h1⟩ := lsFindById_ok_of_safe store 1 hs
    obtain ⟨r2, h2⟩ := lsFindById_ok_of_safe store 2 hs
    refine ⟨r1, r2, lsReadUsers store, h1, h2, rfl, ?_⟩
    unfold main001
    rw [h1, h2]
    rfl

/-- Counterexample to C8 as stated: the `Program.ts` demo prints exactly
two lines under the context its `runSync` call provides — there is no
third (full-listing) line. -/
theorem program_ts_prints_two_lines :
    (program mainProgramContext).length = 2 ∧
    (program mainProgramContext).length ≠ 3 :=
  ⟨rfl, by decide⟩

/-- Witness for C8 on the store holding the serialized empty collection
(and `Program.ts`'s actual context for the two-line part). -/
theorem demo_output_lines_witness :
    store000Safe [("users", "[]")] = true ∧
    store001Safe [("users", "[]")] = true ∧
    (∃ v1 v2, program mainProgramContext =
      [("userService", v1), ("userRepository", v2)]) ∧
    (∃ r1 r2 rall,
      ls0FindById [("users", "[]")] 1 = .ok r1 ∧
      ls0FindById [("users", "[]")] 2 = .ok r2 ∧
      ls0FindAll [("users", "[]")] = .ok rall ∧
      main000 [("users", "[]")] = .ok
        [("user1", .ofOptJson r1), ("user2", .ofOptJson r2),
         ("all", .ofJson rall)]) ∧
    (∃ r1 r2 rall,
      lsFindById [("users", "[]")] 1 = .ok r1 ∧
      lsFindById [("users", "[]")] 2 = .ok r2 ∧
      lsFindAll [("users", "[]")] = .ok rall ∧
      main001 .localStorage [("users", "[]")] = .ok
        [("user1", .ofOptJson r1), ("user2", .ofOptJson r2),
         ("all", .ofJson rall)]) :=
  ⟨rfl, rfl,
   demo_output_lines.1 mainProgramContext,
   demo_output_lines.2.1 [("users", "[]")] rfl,
   demo_output_lines.2.2.2 [("users", "[]")] rfl⟩

/-! ## Round-trip lemmas: numbers -/

/-- Decimal digits below 10 map to digit characters with code `48 + d`. -/
theorem digitChar_toNat : ∀ d, d < 10 → (Nat.digitChar d).toNat = 48 + d := by decide

/-- Decimal digits below 10 map to characters satisfying `isDigit`. -/
theorem digitChar_isDigit : ∀ d, d < 10 → (Nat.digitChar d).isDigit = true := by decide

/-- `natToChars` is never empty. -/
theorem natToChars_ne_nil (n : Nat) : natToChars n ≠ [] := by
  unfold natToChars
  split
  · simp
  · simp [Nat.digits_ne_nil_iff_ne_zero, *]

/-- All characters of `natToChars` are digits. -/
theorem natToChars_all_digits (n : Nat) : ∀ c ∈ natToChars n, c.isDigit = true := by
  unfold natToChars
  split
  · intro c hc
    simp only [List.mem_singleton] at hc
    subst hc
    decide
  · intro c hc
    simp only [List.mem_reverse, List.mem_map] at hc
    obtain ⟨d, hd, rfl⟩ := hc
    exact digitChar_isDigit d (Nat.digits_lt_base (by norm_num) hd)

/-- Big-endian character value of reversed little-endian digits. -/
theorem digitsVal_rev_map (L : List Nat) (h : ∀ d ∈ L, d < 10) :
    digitsVal ((L.map Nat.digitChar).reverse) = Nat.ofDigits 10 L := by
  induction L with
  | nil => rfl
  | cons d L ih =>
    have hd : d < 10 := h d (by simp)
    have hL : ∀ x ∈ L, x < 10 := fun x hx => h x (by simp [hx])
    simp only [List.map_cons, List.reverse_cons, digitsVal, List.foldl_append,
      List.foldl_cons, List.foldl_nil]
    have : (List.map Nat.digitChar L).reverse.foldl
        (fun a c => a * 10 + (c.toNat - 48)) 0 = Nat.ofDigits 10 L := ih hL
    rw [this, digitChar_toNat d hd, Nat.ofDigits_cons]
    omega

/-- `natToChars` round-trips through `digitsVal`. -/
theorem digitsVal_natToChars (n : Nat) : digitsVal (natToChars n) = n := by
  unfold natToChars
  split
  · subst_eqs
    rfl
  · rw [digitsVal_rev_map _ (fun d hd => Nat.digits_lt_base (by norm_num) hd),
      Nat.ofDigits_digits]

/-- `natToChars` never triggers the leading-zero rejection of the JSON
number grammar. -/
theorem natToChars_no_leading_zero (n : Nat) :
    ((natToChars n).head? = some '0' && decide (1 < (natToChars n).length)) = false := by
  unfold natToChars
  split
  · rfl
  · rename_i hn
    have hne : Nat.digits 10 n ≠ [] := Nat.digits_ne_nil_iff_ne_zero.mpr hn
    have hhead : ((Nat.digits 10 n).map Nat.digitChar).reverse.head? =
        ((Nat.digits 10 n).getLast?).map Nat.digitChar := by
      rw [← List.map_reverse, List.head?_map, List.head?_reverse]
    rw [Bool.and_eq_false_iff]
    left
    rw [hhead]
    rw [List.getLast?_eq_getLast _ hne]
    simp only [Option.map_some', Option.some.injEq, decide_eq_false_iff_not]
    intro heq
    have hlast_lt : (Nat.digits 10 n).getLast hne < 10 :=
      Nat.digits_lt_base (by norm_num) (List.getLast_mem hne)
    have hlast_ne : (Nat.digits 10 n).getLast hne ≠ 0 :=
      Nat.getLast_digit_ne_zero 10 hn
    have : ∀ d, d < 10 → d ≠ 0 → Nat.digitChar d ≠ '0' := by decide
    exact this _ hlast_lt hlast_ne heq

/-- `takeDigits` splits exactly at the end of a digit run. -/
theorem takeDigits_append (ds rest : List Char)
    (hds : ∀ c ∈ ds, c.isDigit = true)
    (hrest : ∀ c, rest.head? = some c → c.isDigit = false) :
    takeDigits (ds ++ rest) = (ds, rest) := by
  induction ds with
  | nil =>
    cases rest with
    | nil => rfl
    | cons c t =>
      have hc := hrest c rfl
      simp only [List.nil_append, takeDigits, hc, Bool.false_eq_true, if_false]
  | cons c t ih =>
    have hc : c.isDigit = true := hds c (by simp)
    have iht := ih (fun x hx => hds x (by simp [hx]))
    simp only [List.cons_append, takeDigits, hc, if_true, List.append_eq, iht]

/-- An unsigned decimal literal produced by `natToChars` parses back to
its value when followed by a non-digit. -/
theorem parseUIntLit_natToChars (n : Nat) (rest : List Char)
    (hrest : ∀ c, rest.head? = some c → c.isDigit = false) :
    parseUIntLit (natToChars n ++ rest) = some (n, rest) := by
  unfold parseUIntLit
  rw [takeDigits_append (natToChars n) rest (natToChars_all_digits n) hrest]
  cases hshape : natToChars n with
  | nil => exact absurd hshape (natToChars_ne_nil n)
  | cons c cs =>
    dsimp only
    have hlz := natToChars_no_leading_zero n
    rw [hshape] at hlz
    rw [hlz]
    simp only [Bool.false_eq_true, if_false]
    rw [← hshape, digitsVal_natToChars]

/-- A digit character is not whitespace and differs from the literal
leads the value parser dispatches on. -/
theorem digit_char_class (c : Char) (h : c.isDigit = true) :
    isWs c = false ∧ c ≠ 'n' ∧ c ≠ 't' ∧ c ≠ 'f' ∧ c ≠ '"' ∧ c ≠ '[' ∧
      c ≠ '\x7b' ∧ c ≠ '-' := by
  refine ⟨?_, ?_, ?_, ?_, ?_, ?_, ?_, ?_⟩
  · unfold isWs
    have h1 : c ≠ ' ' := by intro rfl2; subst rfl2; exact absurd h (by decide)
    have h2 : c ≠ '\t' := by intro rfl2; subst rfl2; exact absurd h (by decide)
    have h3 : c ≠ '\n' := by intro rfl2; subst rfl2; exact absurd h (by decide)
    have h4 : c ≠ '\r' := by intro rfl2; subst rfl2; exact absurd h (by decide)
    simp [h1, h2, h3, h4]
  · intro rfl2; subst rfl2; exact absurd h (by decide)
  · intro rfl2; subst rfl2; exact absurd h (by decide)
  · intro rfl2; subst rfl2; exact absurd h (by decide)
  · intro rfl2; subst rfl2; exact absurd h (by decide)
  · intro rfl2; subst rfl2; exact absurd h (by decide)
  · intro rfl2; subst rfl2; exact absurd h (by decide)
  · intro rfl2; subst rfl2; exact absurd h (by decide)

/-- A signed decimal literal produced by `intToChars` parses back to its
value when followed by a non-digit. -/
theorem parseIntLit_intToChars (i : Int) (rest : List Char)
    (hrest : ∀ c, rest.head? = some c → c.isDigit = false) :
    parseIntLit (intToChars i ++ rest) = some (i, rest) := by
  unfold intToChars
  split
  · rename_i hneg
    rw [List.cons_append]
    unfold parseIntLit
    dsimp only
    rw [if_pos rfl]
    rw [parseUIntLit_natToChars i.natAbs rest hrest]
    simp only [Option.some.injEq, Prod.mk.injEq]
    refine ⟨by omega, by simp⟩
  · rename_i hpos
    cases hshape : natToChars i.toNat with
    | nil => exact absurd hshape (natToChars_ne_nil i.toNat)
    | cons c cs =>
      have hdig : c.isDigit = true :=
        natToChars_all_digits i.toNat c (by rw [hshape]; simp)
      have hclass := digit_char_class c hdig
      rw [List.cons_append]
      unfold parseIntLit
      dsimp only
      rw [if_neg hclass.2.2.2.2.2.2.2]
      rw [← List.cons_append, ← hshape]
      rw [parseUIntLit_natToChars i.toNat rest hrest]
      simp only [Option.some.injEq, Prod.mk.injEq]
      refine ⟨by omega, by simp⟩

/-! ## Round-trip lemmas: strings -/

/-- A string escaped by `JSON.stringify` (printable fragment) parses back
to itself up to its closing quote. -/
theorem parseStringBody_escape (cs rest : List Char)
    (h : ∀ c ∈ cs, 32 ≤ c.toNat) :
    parseStringBody (escChars cs ++ '"' :: rest) = some (cs, rest) := by
  induction cs with
  | nil =>
    show parseStringBody ([] ++ '"' :: rest) = _
    rw [List.nil_append]
    unfold parseStringBody
    simp
  | cons c cs ih =>
    have hc : 32 ≤ c.toNat := h c (by simp)
    have iht := ih (fun x hx => h x (by simp [hx]))
    by_cases h1 : c = '"'
    · subst h1
      have hesc : escChars ('"' :: cs) = '\\' :: '"' :: escChars cs := by
        simp [escChars, escapeChar]
      rw [hesc, List.cons_append, List.cons_append]
      unfold parseStringBody
      simp [iht]
    · by_cases h2 : c = '\\'
      · subst h2
        have hesc : escChars ('\\' :: cs) = '\\' :: '\\' :: escChars cs := by
          simp [escChars, escapeChar]
        rw [hesc, List.cons_append, List.cons_append]
        unfold parseStringBody
        simp [iht]
      · have h3 : ¬ c.toNat < 32 := by omega
        have hesc : escChars (c :: cs) = c :: escChars cs := by
          simp [escChars, escapeChar, h1, h2]
        rw [hesc, List.cons_append]
        unfold parseStringBody
        simp [h1, h2, h3, iht]

/-! ## Round-trip lemmas: values -/

/-- `skipWs` is the identity on input not led by whitespace. -/
theorem skipWs_cons_not_ws (c : Char) (l : List Char) (h : isWs c = false) :
    skipWs (c :: l) = c :: l := by
  unfold skipWs
  rw [h]
  simp

/-- A serialized integer parses as a JSON number value. -/
theorem parseVal_num (k : Nat) (i : Int) (rest : List Char)
    (hrest : ∀ c, rest.head? = some c → c.isDigit = false) :
    parseVal (k + 1) (intToChars i ++ rest) = some (.jnum i, rest) := by
  have hlit := parseIntLit_intToChars i rest hrest
  by_cases hneg : i < 0
  · have hshape : intToChars i = '-' :: natToChars i.natAbs := by
      unfold intToChars
      rw [if_pos hneg]
    rw [hshape] at hlit ⊢
    rw [List.cons_append] at hlit ⊢
    unfold parseVal
    rw [skipWs_cons_not_ws '-' _ (by decide)]
    simp [hlit]
  · have hshape : intToChars i = natToChars i.toNat := by
      unfold intToChars
      rw [if_neg hneg]
    rw [hshape] at hlit ⊢
    cases hnat : natToChars i.toNat with
    | nil => exact absurd hnat (natToChars_ne_nil i.toNat)
    | cons c cs =>
      have hdig : c.isDigit = true :=
        natToChars_all_digits i.toNat c (by rw [hnat]; simp)
      have hclass := digit_char_class c hdig
      rw [hnat] at hlit
      rw [List.cons_append] at hlit ⊢
      unfold parseVal
      rw [skipWs_cons_not_ws c _ hclass.1]
      simp [hclass.2.1, hclass.2.2.1, hclass.2.2.2.1, hclass.2.2.2.2.1,
        hclass.2.2.2.2.2.1, hclass.2.2.2.2.2.2.1, hdig, hlit]

/-- A serialized string literal parses as a JSON string value. -/
theorem parseVal_str (k : Nat) (cs rest : List Char)
    (h : ∀ c ∈ cs, 32 ≤ c.toNat) :
    parseVal (k + 1) ('"' :: escChars cs ++ '"' :: rest) =
      some (.jstr ⟨cs⟩, rest) := by
  rw [List.cons_append]
  unfold parseVal
  rw [skipWs_cons_not_ws '"' _ (by decide)]
  simp [parseStringBody_escape cs rest h]

/-- `parseVal_str` with the input in cons-normal form. -/
theorem parseVal_str2 (k : Nat) (cs rest : List Char)
    (h : ∀ c ∈ cs, 32 ≤ c.toNat) :
    parseVal (k + 1) ('"' :: (escChars cs ++ '"' :: rest)) =
      some (.jstr ⟨cs⟩, rest) := by
  show parseVal (k + 1) (('"' :: escChars cs) ++ '"' :: rest) = _
  exact parseVal_str k cs rest h

/-- The serialized form of `{ id, name }`, cons-normalized. -/
theorem userObj_chars (u : User) (rest : List Char) :
    stringifyChars (userToJson u) ++ rest =
      '\x7b' :: '"' :: 'i' :: 'd' :: '"' :: ':' ::
        (intToChars u.id ++
          (',' :: '"' :: 'n' :: 'a' :: 'm' :: 'e' :: '"' :: ':' :: '"' ::
            (escChars u.name.data ++ ('"' :: '\x7d' :: rest)))) := by
  show stringifyChars (.jobj [("id", .jnum u.id), ("name", .jstr u.name)]) ++ rest = _
  simp only [stringifyChars, stringifyFields]
  simp [escChars, escapeChar, List.append_assoc]

/-- Parsing the serialized `"name"` member and closing brace. -/
theorem parseFields_nameField (k : Nat) (u : User) (rest : List Char)
    (hname : ∀ c ∈ u.name.data, 32 ≤ c.toNat) :
    parseFields (k + 2)
      ('"' :: 'n' :: 'a' :: 'm' :: 'e' :: '"' :: ':' :: '"' ::
        (escChars u.name.data ++ '"' :: '\x7d' :: rest)) =
      some ([("name", .jstr u.name)], rest) := by
  have hstr := parseVal_str2 k u.name.data ('\x7d' :: rest) hname
  have h1 : parseFields (k + 2)
      ('"' :: 'n' :: 'a' :: 'm' :: 'e' :: '"' :: ':' :: '"' ::
        (escChars u.name.data ++ '"' :: '\x7d' :: rest)) =
      (match parseVal (k + 1)
          ('"' :: (escChars u.name.data ++ '"' :: '\x7d' :: rest)) with
       | none => none
       | some (v, rem3) =>
         match skipWs rem3 with
         | ',' :: rem4 =>
           (match parseFields (k + 1) rem4 with
            | some (fs, r) => some (("name", v) :: fs, r)
            | none => none)
         | '\x7d' :: rem4 => some ([("name", v)], rem4)
         | _ => none) := rfl
  rw [h1, hstr]
  rfl

/-- A serialized user object parses back to itself. -/
theorem parseVal_userObj (k : Nat) (u : User) (rest : List Char)
    (h : nameOk u.name = true) :
    parseVal (k + 4) (stringifyChars (userToJson u) ++ rest) =
      some (userToJson u, rest) := by
  have hname : ∀ c ∈ u.name.data, 32 ≤ c.toNat := by
    intro c hc
    have h2 := (List.all_eq_true.mp h) c hc
    simpa using h2
  have hnum : parseVal (k + 2)
      (intToChars u.id ++
        (',' :: '"' :: 'n' :: 'a' :: 'm' :: 'e' :: '"' :: ':' :: '"' ::
          (escChars u.name.data ++ ('"' :: '\x7d' :: rest)))) =
      some (.jnum u.id,
        ',' :: '"' :: 'n' :: 'a' :: 'm' :: 'e' :: '"' :: ':' :: '"' ::
          (escChars u.name.data ++ ('"' :: '\x7d' :: rest))) :=
    parseVal_num (k + 1) u.id _ (by intro c hc; simp at hc; subst hc; decide)
  have hfield := parseFields_nameField k u rest hname
  rw [userObj_chars u rest]
  have h1 : parseVal (k + 4)
      ('\x7b' :: '"' :: 'i' :: 'd' :: '"' :: ':' ::
        (intToChars u.id ++
          (',' :: '"' :: 'n' :: 'a' :: 'm' :: 'e' :: '"' :: ':' :: '"' ::
            (escChars u.name.data ++ ('"' :: '\x7d' :: rest))))) =
      (match (match parseVal (k + 2)
            (intToChars u.id ++
              (',' :: '"' :: 'n' :: 'a' :: 'm' :: 'e' :: '"' :: ':' :: '"' ::
                (escChars u.name.data ++ ('"' :: '\x7d' :: rest)))) with
        | none => none
        | some (v, rem3) =>
          match skipWs rem3 with
          | ',' :: rem4 =>
            (match parseFields (k + 2) rem4 with
             | some (fs, r) => some (("id", v) :: fs, r)
             | none => none)
          | '\x7d' :: rem4 => some ([("id", v)], rem4)
          | _ => none) with
       | some (fs, rem) => some (JSON.jobj fs, rem)
       | none => none) := rfl
  rw [h1, hnum]
  have h2 : (match (match skipWs
        (',' :: '"' :: 'n' :: 'a' :: 'm' :: 'e' :: '"' :: ':' :: '"' ::
          (escChars u.name.data ++ ('"' :: '\x7d' :: rest))) with
      | ',' :: rem4 =>
        (match parseFields (k + 2) rem4 with
         | some (fs, r) => some (("id", JSON.jnum u.id) :: fs, r)
         | none => none)
      | '\x7d' :: rem4 => some ([("id", JSON.jnum u.id)], rem4)
      | _ => none : Option (List (String × JSON) × List Char)) with
     | some (fs, rem) => some (JSON.jobj fs, rem)
     | none => none) =
      (match (match parseFields (k + 2)
          ('"' :: 'n' :: 'a' :: 'm' :: 'e' :: '"' :: ':' :: '"' ::
            (escChars u.name.data ++ ('"' :: '\x7d' :: rest))) with
        | some (fs, r) => some (("id", JSON.jnum u.id) :: fs, r)
        | none => none : Option (List (String × JSON) × List Char)) with
       | some (fs, rem) => some (JSON.jobj fs, rem)
       | none => none) := rfl
  rw [h2]
  rw [show ('"' :: 'n' :: 'a' :: 'm' :: 'e' :: '"' :: ':' :: '"' ::
      (escChars u.name.data ++ ('"' :: '\x7d' :: rest))) =
    ('"' :: 'n' :: 'a' :: 'm' :: 'e' :: '"' :: ':' :: '"' ::
      (escChars u.name.data ++ '"' :: '\x7d' :: rest)) from rfl]
  rw [hfield]
  rfl

/-- `usersWF` splits across cons. -/
theorem usersWF_cons (u : User) (us : List User) (h : usersWF (u :: us) = true) :
    nameOk u.name = true ∧ usersWF us = true := by
  unfold usersWF at h
  simp only [List.all_cons, Bool.and_eq_true] at h
  exact ⟨h.1, h.2⟩

/-- A serialized non-empty user list parses element-wise up to the
closing bracket. -/
theorem parseElems_users (k : Nat) (u : User) (us : List User) (rest : List Char)
    (h : nameOk u.name = true) (hus : usersWF us = true) :
    parseElems (k + 5 * us.length + 5)
      (stringifyElems ((u :: us).map userToJson) ++ ']' :: rest) =
      some ((u :: us).map userToJson, rest) := by
  induction us generalizing u k rest with
  | nil =>
    have hobj := parseVal_userObj k u (']' :: rest) h
    have h1 : parseElems (k + 5 * ([] : List User).length + 5)
        (stringifyChars (userToJson u) ++ ']' :: rest) =
        (match parseVal (k + 4) (stringifyChars (userToJson u) ++ ']' :: rest) with
         | none => none
         | some (v, rem) =>
           match skipWs rem with
           | ',' :: rem2 =>
             (match parseElems (k + 4) rem2 with
              | some (vs, r) => some (v :: vs, r)
              | none => none)
           | ']' :: rem2 => some ([v], rem2)
           | _ => none) := rfl
    show parseElems (k + 5 * ([] : List User).length + 5)
        (stringifyChars (userToJson u) ++ ']' :: rest) = _
    rw [h1, hobj]
    rfl
  | cons u2 t ih =>
    obtain ⟨h2, ht⟩ := usersWF_cons u2 t hus
    have hobj := parseVal_userObj (k + 5 * t.length + 5) u
      (',' :: (stringifyElems ((u2 :: t).map userToJson) ++ ']' :: rest)) h
    have hih := ih (k + 4) u2 rest h2 ht
    have hshape : stringifyElems ((u :: u2 :: t).map userToJson) ++ ']' :: rest =
        stringifyChars (userToJson u) ++
          (',' :: (stringifyElems ((u2 :: t).map userToJson) ++ ']' :: rest)) := by
      show stringifyElems (userToJson u :: userToJson u2 :: t.map userToJson) ++ ']' :: rest = _
      rw [show stringifyElems (userToJson u :: userToJson u2 :: t.map userToJson) =
        stringifyChars (userToJson u) ++
          ',' :: stringifyElems (userToJson u2 :: t.map userToJson) from rfl]
      simp [List.append_assoc]
    rw [hshape]
    have h1 : parseElems (k + 5 * (u2 :: t).length + 5)
        (stringifyChars (userToJson u) ++
          (',' :: (stringifyElems ((u2 :: t).map userToJson) ++ ']' :: rest))) =
        (match parseVal (k + 5 * t.length + 9)
            (stringifyChars (userToJson u) ++
              (',' :: (stringifyElems ((u2 :: t).map userToJson) ++ ']' :: rest))) with
         | none => none
         | some (v, rem) =>
           match skipWs rem with
           | ',' :: rem2 =>
             (match parseElems (k + 5 * t.length + 9) rem2 with
              | some (vs, r) => some (v :: vs, r)
              | none => none)
           | ']' :: rem2 => some ([v], rem2)
           | _ => none) := rfl
    rw [h1]
    rw [show k + 5 * t.length + 9 = (k + 5 * t.length + 5) + 4 from rfl] at hobj ⊢
    rw [hobj]
    have h3 : (match (some (userToJson u,
        ',' :: (stringifyElems ((u2 :: t).map userToJson) ++ ']' :: rest)) :
          Option (JSON × List Char)) with
      | none => none
      | some (v, rem) =>
        match skipWs rem with
        | ',' :: rem2 =>
          (match parseElems ((k + 5 * t.length + 5) + 4) rem2 with
           | some (vs, r) => some (v :: vs, r)
           | none => none)
        | ']' :: rem2 => some ([v], rem2)
        | _ => (none : Option (List JSON × List Char))) =
      (match parseElems ((k + 5 * t.length + 5) + 4)
          (stringifyElems ((u2 :: t).map userToJson) ++ ']' :: rest) with
       | some (vs, r) => some (userToJson u :: vs, r)
       | none => none) := rfl
    rw [h3]
    rw [show (k + 5 * t.length + 5) + 4 = (k + 4) + 5 * t.length + 5 from by omega]
    rw [hih]
    rfl

/-- The serialized user array, cons-normalized. -/
theorem usersArr_chars (us : List User) (rest : List Char) :
    stringifyChars (usersToJson us) ++ rest =
      '[' :: (stringifyElems (us.map userToJson) ++ ']' :: rest) := by
  show stringifyChars (.jarr (us.map userToJson)) ++ rest = _
  rw [show stringifyChars (.jarr (us.map userToJson)) =
    '[' :: stringifyElems (us.map userToJson) ++ [']'] from rfl]
  simp [List.append_assoc]

/-- A serialized non-empty element list starts with an object brace. -/
theorem serializedElems_head (u : User) (ts : List JSON) (rest : List Char) :
    ∃ X, stringifyElems (userToJson u :: ts) ++ ']' :: rest = '\x7b' :: X := by
  cases ts with
  | nil =>
    refine ⟨(stringifyFields [("id", .jnum u.id), ("name", .jstr u.name)] ++
      ['\x7d']) ++ ']' :: rest, ?_⟩
    rfl
  | cons y ys =>
    refine ⟨((stringifyFields [("id", .jnum u.id), ("name", .jstr u.name)] ++
      ['\x7d']) ++ ',' :: stringifyElems (y :: ys)) ++ ']' :: rest, ?_⟩
    show (stringifyChars (userToJson u) ++ ',' :: stringifyElems (y :: ys)) ++
        ']' :: rest = _
    rw [show stringifyChars (userToJson u) =
      '\x7b' :: (stringifyFields [("id", .jnum u.id), ("name", .jstr u.name)] ++
        ['\x7d']) from rfl]
    simp [List.append_assoc]

/-- A serialized user array parses back to itself. -/
theorem parseVal_usersArr (k : Nat) (us : List User) (rest : List Char)
    (h : usersWF us = true) :
    parseVal (k + 5 * us.length + 6) (stringifyChars (usersToJson us) ++ rest) =
      some (usersToJson us, rest) := by
  rw [usersArr_chars]
  cases us with
  | nil => rfl
  | cons u t =>
    obtain ⟨hn, ht⟩ := usersWF_cons u t h
    have hA := parseElems_users (k + 5) u t rest hn ht
    obtain ⟨X, hX⟩ := serializedElems_head u (t.map userToJson) rest
    have hXl : stringifyElems ((u :: t).map userToJson) ++ ']' :: rest =
        '\x7b' :: X := hX
    rw [hXl] at hA ⊢
    have h1 : parseVal (k + 5 * (u :: t).length + 6) ('[' :: '\x7b' :: X) =
        (match parseElems (k + 5 * t.length + 10) ('\x7b' :: X) with
         | some (es, rem) => some (.jarr es, rem)
         | none => none) := rfl
    rw [h1]
    rw [show k + 5 * t.length + 10 = (k + 5) + 5 * t.length + 5 from by omega]
    rw [hA]
    rfl

/-- A serialized user object is at least two characters long. -/
theorem stringifyChars_userObj_len (u : User) :
    2 ≤ (stringifyChars (userToJson u)).length := by
  rw [show stringifyChars (userToJson u) =
    '\x7b' :: (stringifyFields [("id", .jnum u.id), ("name", .jstr u.name)] ++
      ['\x7d']) from rfl]
  simp

/-- The serialized element list is at least twice as long as the
collection. -/
theorem stringifyElems_users_len (us : List User) :
    2 * us.length ≤ (stringifyElems (us.map userToJson)).length := by
  induction us with
  | nil => simp [stringifyElems]
  | cons u t ih =>
    cases t with
    | nil =>
      show 2 * 1 ≤ (stringifyElems [userToJson u]).length
      rw [show stringifyElems [userToJson u] = stringifyChars (userToJson u) from rfl]
      have := stringifyChars_userObj_len u
      omega
    | cons u2 ts =>
      have h2 := stringifyChars_userObj_len u
      rw [show stringifyElems ((u :: u2 :: ts).map userToJson) =
        stringifyChars (userToJson u) ++
          ',' :: stringifyElems ((u2 :: ts).map userToJson) from rfl]
      simp only [List.length_append, List.length_cons, List.map_cons] at ih ⊢
      omega

/-- Round trip: `JSON.parse` inverts `JSON.stringify` on every user
collection with printable names (C6's core property). -/
theorem jsonParse_stringify_users (us : List User) (h : usersWF us = true) :
    jsonParse (jsonStringify (usersToJson us)) = some (usersToJson us) := by
  have hb := stringifyElems_users_len us
  have hlen : (stringifyChars (usersToJson us)).length =
      (stringifyElems (us.map userToJson)).length + 2 := by
    rw [show stringifyChars (usersToJson us) =
      '[' :: stringifyElems (us.map userToJson) ++ [']'] from rfl]
    simp
  have hmain := parseVal_usersArr
    (4 * (stringifyChars (usersToJson us)).length + 2 - 5 * us.length) us [] h
  rw [List.append_nil] at hmain
  have hfuel : 4 * (stringifyChars (usersToJson us)).length + 8 =
      (4 * (stringifyChars (usersToJson us)).length + 2 - 5 * us.length) +
        5 * us.length + 6 := by omega
  show (match parseVal (4 * (stringifyChars (usersToJson us)).length + 8)
      (stringifyChars (usersToJson us)) with
    | some (v, rem) => if (skipWs rem).isEmpty then some v else none
    | none => none) = some (usersToJson us)
  rw [hfuel, hmain]
  rfl

/-! ## Round trip and update: claims C2 and C6 -/

/-- Reading back the key just written. -/
theorem store_get_set (s : Store) (k v : String) :
    Store.get (Store.set s k v) k = some v := by
  induction s with
  | nil => simp [Store.set, Store.get, List.find?_cons]
  | cons p rest ih =>
    unfold Store.set
    by_cases hp : p.1 == k
    · simp only [hp, if_true]
      simp [Store.get, List.find?_cons]
    · simp only [hp, Bool.false_eq_true, if_false]
      unfold Store.get at ih ⊢
      simp [List.find?_cons, hp, ih]

/-- `update` preserves printability of the collection. -/
theorem usersWF_update (us : List User) (u : User)
    (h : usersWF us = true) (hn : nameOk u.name = true) :
    usersWF (inMemoryUpdate us u) = true := by
  unfold inMemoryUpdate
  cases hidx : us.findIdx? (fun v => v.id == u.id) with
  | none => exact h
  | some i =>
    unfold usersWF at h ⊢
    rw [List.all_eq_true] at h ⊢
    intro x hx
    rcases List.mem_or_eq_of_mem_set hx with hmem | rfl
    · exact h x hmem
    · exact hn

/-- Core of the persisted round trip: the written blob reads back as the
written value. -/
theorem setItem_getItem_roundtrip_core (store : Store) (k : String) (us : List User)
    (h : usersWF us = true) :
    getItem (setItem store k (usersToJson us)).2 k = .ok (some (usersToJson us)) := by
  have hget : Store.get (Store.set store k (jsonStringify (usersToJson us))) k =
      some (jsonStringify (usersToJson us)) := store_get_set store k _
  exact getItem_of_parse _ k _ _ hget (jsonParse_stringify_users us h)

/-- `part_001`'s `update` on a store holding a serialized collection:
read, replace-at-first-matching-index (or keep), write back. -/
theorem lsUpdate_of_parse (store : Store) (b : String) (us : List User) (u : User)
    (hget : Store.get store "users" = some b)
    (hparse : jsonParse b = some (usersToJson us)) :
    lsUpdate store u =
      (.ok (), Store.set store "users"
        (jsonStringify (usersToJson (inMemoryUpdate us u)))) := by
  have hItem := getItem_of_parse store "users" b (usersToJson us) hget hparse
  unfold lsUpdate
  rw [hItem]
  dsimp only
  rw [jsFalsy_usersToJson]
  simp only [Bool.false_eq_true, if_false]
  unfold usersToJson
  dsimp only
  rw [jsFindIndexById_map_users]
  dsimp only
  unfold inMemoryUpdate
  cases hidx : us.findIdx? (fun v => v.id == u.id) with
  | none =>
    dsimp only
    rw [if_pos (by decide : (-1 : Int) < 0)]
    rfl
  | some i =>
    dsimp only
    rw [if_neg (by omega : ¬ ((i : Int) < 0))]
    have hi : i < us.length := by
      have := List.findIdx?_eq_some_iff_findIdx_eq.mp hidx
      exact this.1
    have hset : (us.map userToJson).take ((i : Int)).toNat ++ [userToJson u] ++
        (us.map userToJson).drop (((i : Int)).toNat + 1) =
        (us.set i u).map userToJson := by
      rw [Int.toNat_natCast, List.set_eq_take_append_cons_drop, if_pos hi]
      simp [List.map_take, List.map_drop]
    rw [hset]
    rfl

/-- `findAll` on a store freshly written by `update`/`setItem` returns
exactly the written collection. -/
theorem lsFindAll_of_written (store : Store) (us : List User)
    (h : usersWF us = true) :
    lsFindAll (Store.set store "users" (jsonStringify (usersToJson us))) =
      .ok (usersToJson us) := by
  unfold lsFindAll lsReadUsers
  rw [getItem_of_parse _ "users" _ _ (store_get_set store "users" _)
    (jsonParse_stringify_users us h)]
  dsimp only
  rw [jsFalsy_usersToJson]
  simp

/-- **C2**: for every collection state and user `u`: when a record with
id `u.id` is present at (first) index `i`, `update(u)` replaces exactly
that record, leaving every other record and the collection length
unchanged; when no record with that id is present, the collection is
unchanged and nothing is inserted — for the in-memory implementation
(`users[findIndex] = user`; index `-1` only creates a non-index property)
and, on stores holding a serialized collection with printable names, for
the persisted implementation, whose written-back collection is observably
(via `findAll`) the same transform of the stored one. -/
theorem update_replaces_present_id_only (us : List User) (u : User) :
    (∀ i, us.findIdx? (fun v => v.id == u.id) = some i →
      inMemoryUpdate us u = us.set i u ∧
      (inMemoryUpdate us u).length = us.length ∧
      (inMemoryUpdate us u)[i]? = some u ∧
      (∀ j, j ≠ i → (inMemoryUpdate us u)[j]? = us[j]?) ∧
      (∃ w, us[i]? = some w ∧ w.id = u.id)) ∧
    ((∀ v ∈ us, v.id ≠ u.id) → inMemoryUpdate us u = us) ∧
    (∀ store b, Store.get store "users" = some b →
      jsonParse b = some (usersToJson us) →
      usersWF us = true → nameOk u.name = true →
      lsUpdate store u =
        (.ok (), Store.set store "users"
          (jsonStringify (usersToJson (inMemoryUpdate us u)))) ∧
      lsFindAll (Store.set store "users"
          (jsonStringify (usersToJson (inMemoryUpdate us u)))) =
        .ok (usersToJson (inMemoryUpdate us u))) := by
  refine ⟨?_, ?_, ?_⟩
  · intro i hidx
    have hupd : inMemoryUpdate us u = us.set i u := by
      unfold inMemoryUpdate
      rw [hidx]
    obtain ⟨hi, hp, -⟩ := List.findIdx?_eq_some_iff_getElem.mp hidx
    refine ⟨hupd, by simp [hupd], ?_, ?_, ?_⟩
    · rw [hupd]
      simp [List.getElem?_set_self hi]
    · intro j hj
      rw [hupd]
      exact List.getElem?_set_ne (by omega)
    · exact ⟨us[i], List.getElem?_eq_getElem hi, by simpa using hp⟩
  · intro h
    unfold inMemoryUpdate
    rw [List.findIdx?_eq_none_iff.mpr (fun x hx => by simpa using h x hx)]
  · intro store b hget hparse hwf hn
    exact ⟨lsUpdate_of_parse store b us u hget hparse,
      lsFindAll_of_written store (inMemoryUpdate us u) (usersWF_update us u hwf hn)⟩

/-- **C6**: for the persisted implementation, for every key and every
value of the stored record type (a user collection; names drawn from the
printable fragment the serializer is modelled on), `setItem(k, v)`
succeeds and a following `getItem(k)` succeeds with a value deep-equal to
`v` — the JSON serialize-then-deserialize round trip. -/
theorem setItem_getItem_roundtrip (store : Store) (k : String) (us : List User)
    (h : usersWF us = true) :
    (setItem store k (usersToJson us)).1 = .ok () ∧
    getItem (setItem store k (usersToJson us)).2 k = .ok (some (usersToJson us)) :=
  ⟨rfl, getItem_of_parse _ k _ _ (store_get_set store k _)
    (jsonParse_stringify_users us h)⟩

/-- Witness for C6 at the seed collection and the empty store. -/
theorem setItem_getItem_roundtrip_witness :
    usersWF users = true ∧
    (setItem [] "users" (usersToJson users)).1 = .ok () ∧
    getItem (setItem [] "users" (usersToJson users)).2 "users" =
      .ok (some (usersToJson users)) := by
  have h : usersWF users = true := by decide
  exact ⟨h, setItem_getItem_roundtrip [] "users" users h⟩

/-- Witness for C2 at the seed collection, updating user 1, with the
serialized seed blob stored under `"users"`. -/
theorem update_replaces_present_id_only_witness :
    users.findIdx? (fun v => v.id == (1 : Int)) = some 0 ∧
    inMemoryUpdate users ⟨1, "Changed"⟩ = users.set 0 ⟨1, "Changed"⟩ ∧
    (inMemoryUpdate users ⟨1, "Changed"⟩).length = users.length ∧
    lsUpdate
      [("users",
        "[\x7b\"id\":1,\"name\":\"User 1\"\x7d,\x7b\"id\":2,\"name\":\"User 2\"\x7d]")]
      ⟨1, "Changed"⟩ =
      (.ok (), Store.set
        [("users",
          "[\x7b\"id\":1,\"name\":\"User 1\"\x7d,\x7b\"id\":2,\"name\":\"User 2\"\x7d]")]
        "users"
        (jsonStringify (usersToJson (inMemoryUpdate users ⟨1, "Changed"⟩)))) := by
  have h := update_replaces_present_id_only users ⟨1, "Changed"⟩
  have hidx : users.findIdx? (fun v => v.id == (1 : Int)) = some 0 := rfl
  have h1 := h.1 0 hidx
  have h3 := (h.2.2
    [("users",
      "[\x7b\"id\":1,\"name\":\"User 1\"\x7d,\x7b\"id\":2,\"name\":\"User 2\"\x7d]")]
    "[\x7b\"id\":1,\"name\":\"User 1\"\x7d,\x7b\"id\":2,\"name\":\"User 2\"\x7d]"
    rfl rfl (by decide) (by decide)).1
  exact ⟨hidx, h1.1, h1.2.1, h3⟩
